import Mathlib

/-!
Verification of the TDHF/TDA analytic nuclear gradient kernel of
`pyscf/grad/tdrhf.py` (function `kernel` and class `Gradients`).

Shallow embedding: all matrices are rational matrices over `Fin`-indexed
dimensions.  External collaborators (the J/K builds of the integral provider
`mf.get_jk` and `td_grad.get_jk`, the CPHF iterative solver `cphf.solve`,
the core-Hamiltonian derivative generator, the overlap derivative and the
atom offset table) are oracle function parameters collected in `Inputs`;
the code under study never looks inside them.  The raveled/flattened
vector bookkeeping of numpy (`reshape`, `.ravel()`) is modelled by working
directly with `occ x vir` / `vir x occ` matrices, since the reshape between
a flat vector and a matrix is a bijective relabelling.
-/

namespace TDRHF

open scoped BigOperators
open Matrix

abbrev Mat (m n : ℕ) : Type := Matrix (Fin m) (Fin n) ℚ

variable {nocc nvir nao : ℕ}

/-- Index of the i-th occupied orbital inside the full MO range
(`mo_coeff[:, :nocc]` slicing). -/
def occIdx {nocc nvir : ℕ} (i : Fin nocc) : Fin (nocc + nvir) := Fin.castAdd nvir i

/-- Index of the a-th virtual orbital inside the full MO range
(`mo_coeff[:, nocc:]` slicing). -/
def virIdx {nocc nvir : ℕ} (a : Fin nvir) : Fin (nocc + nvir) := Fin.natAdd nocc a

/-- Assemble an `nmo x nmo` matrix from its four occ/vir blocks, mirroring the
numpy block assignments `M[:nocc,:nocc]`, `M[:nocc,nocc:]`, `M[nocc:,:nocc]`,
`M[nocc:,nocc:]`. -/
def blocks {nocc nvir : ℕ} (Aoo : Mat nocc nocc) (Aov : Mat nocc nvir)
    (Avo : Mat nvir nocc) (Avv : Mat nvir nvir) : Mat (nocc + nvir) (nocc + nvir) :=
  fun p q =>
    Fin.addCases (fun i => Fin.addCases (Aoo i) (Aov i) q)
      (fun a => Fin.addCases (Avo a) (Avv a) q) p

/-- Occupied-occupied block of an `nmo x nmo` matrix (`M[:nocc,:nocc]`). -/
def ooB (M : Mat (nocc + nvir) (nocc + nvir)) : Mat nocc nocc :=
  fun i j => M (occIdx i) (occIdx j)

/-- Occupied-virtual block (`M[:nocc,nocc:]`). -/
def ovB (M : Mat (nocc + nvir) (nocc + nvir)) : Mat nocc nvir :=
  fun i a => M (occIdx i) (virIdx a)

/-- Virtual-occupied block (`M[nocc:,:nocc]`). -/
def voB (M : Mat (nocc + nvir) (nocc + nvir)) : Mat nvir nocc :=
  fun a i => M (virIdx a) (occIdx i)

/-- Virtual-virtual block (`M[nocc:,nocc:]`). -/
def vvB (M : Mat (nocc + nvir) (nocc + nvir)) : Mat nvir nvir :=
  fun a b => M (virIdx a) (virIdx b)

/-- Inputs of one gradient evaluation: the reference wavefunction data
(`mo_coeff`, `mo_energy`), the external integral-provider oracles
(`get_jk` for `mf.get_jk`, `get_jk_grad` for the derivative batch
`td_grad.get_jk` with its three Cartesian components per density,
`hcore_deriv` for `hcore_generator(mol)(ia)`, `s1` for `get_ovlp`),
the external CPHF solver oracle `cphf_solve` (called on the Fock-response
closure `fvind` and the right-hand side `wvo`; orbital energies,
occupations and the convergence controls are absorbed into the oracle),
the per-atom AO offset table `offset` (`offset_nr_by_atom`, giving the
`(p0, p1)` AO function range) and the atom count `natm`. -/
structure Inputs (nocc nvir nao : ℕ) where
  mo_coeff : Mat nao (nocc + nvir)
  mo_energy : Fin (nocc + nvir) → ℚ
  get_jk : Mat nao nao → Mat nao nao × Mat nao nao
  cphf_solve : (Mat nvir nocc → Mat nvir nocc) → Mat nvir nocc → Mat nvir nocc
  get_jk_grad : Mat nao nao → (Fin 3 → Mat nao nao) × (Fin 3 → Mat nao nao)
  hcore_deriv : ℕ → Fin 3 → Mat nao nao
  s1 : Fin 3 → Mat nao nao
  offset : ℕ → ℕ × ℕ
  natm : ℕ

/-- Source line `xpy = (x+y).reshape(nocc,nvir).T`. -/
def xpy (x y : Mat nocc nvir) : Mat nvir nocc := (x + y)ᵀ

/-- Source line `xmy = (x-y).reshape(nocc,nvir).T`. -/
def xmy (x y : Mat nocc nvir) : Mat nvir nocc := (x - y)ᵀ

/-- Source line `orbo = mo_coeff[:,:nocc]`. -/
def orbo (C : Mat nao (nocc + nvir)) : Mat nao nocc := fun μ i => C μ (occIdx i)

/-- Source line `orbv = mo_coeff[:,nocc:]`. -/
def orbv (C : Mat nao (nocc + nvir)) : Mat nao nvir := fun μ a => C μ (virIdx a)

/-- Source line `dvv = einsum(ai,bi->ab, xpy, xpy) + einsum(ai,bi->ab, xmy, xmy)`. -/
def dvv (x y : Mat nocc nvir) : Mat nvir nvir :=
  xpy x y * (xpy x y)ᵀ + xmy x y * (xmy x y)ᵀ

/-- Source line `doo = -einsum(ai,aj->ij, xpy, xpy) - einsum(ai,aj->ij, xmy, xmy)`. -/
def doo (x y : Mat nocc nvir) : Mat nocc nocc :=
  -((xpy x y)ᵀ * xpy x y) - (xmy x y)ᵀ * xmy x y

/-- Source line `dmzvop = reduce(dot, (orbv, xpy, orbo.T))`. -/
def dmzvop (C : Mat nao (nocc + nvir)) (x y : Mat nocc nvir) : Mat nao nao :=
  orbv C * xpy x y * (orbo C)ᵀ

/-- Source line `dmzvom = reduce(dot, (orbv, xmy, orbo.T))`. -/
def dmzvom (C : Mat nao (nocc + nvir)) (x y : Mat nocc nvir) : Mat nao nao :=
  orbv C * xmy x y * (orbo C)ᵀ

/-- Source line `dmzoo = reduce(dot, (orbo, doo, orbo.T)) + reduce(dot, (orbv, dvv, orbv.T))`. -/
def dmzoo (C : Mat nao (nocc + nvir)) (x y : Mat nocc nvir) : Mat nao nao :=
  orbo C * doo x y * (orbo C)ᵀ + orbv C * dvv x y * (orbv C)ᵀ

/-- Source line `veff0doo = vj[0] * 2 - vk[0]` for the J/K build of `dmzoo`. -/
def veff0doo (inp : Inputs nocc nvir nao) (x y : Mat nocc nvir) : Mat nao nao :=
  let v := inp.get_jk (dmzoo inp.mo_coeff x y)
  (2 : ℚ) • v.1 - v.2

/-- Source line `veff0mop = mo_coeff.T @ veff @ mo_coeff` where `veff` is the J/K build of
`dmzvop + dmzvop.T` combined as `vj*2 - vk` when singlet and `-vk` when triplet. -/
def veff0mop (inp : Inputs nocc nvir nao) (x y : Mat nocc nvir) (singlet : Bool) :
    Mat (nocc + nvir) (nocc + nvir) :=
  let v := inp.get_jk (dmzvop inp.mo_coeff x y + (dmzvop inp.mo_coeff x y)ᵀ)
  let veff := if singlet then (2 : ℚ) • v.1 - v.2 else -v.2
  inp.mo_coeffᵀ * veff * inp.mo_coeff

/-- Source line `veff0mom = mo_coeff.T @ (-vk[2]) @ mo_coeff` for the J/K build of
`dmzvom - dmzvom.T`; the source sets `veff = -vk[2]` outside any
singlet/triplet branch. -/
def veff0mom (inp : Inputs nocc nvir nao) (x y : Mat nocc nvir) :
    Mat (nocc + nvir) (nocc + nvir) :=
  let v := inp.get_jk (dmzvom inp.mo_coeff x y - (dmzvom inp.mo_coeff x y)ᵀ)
  inp.mo_coeffᵀ * (-v.2) * inp.mo_coeff

/-- The CPHF right-hand side `wvo`, accumulated as in the source:
`orbv.T @ veff0doo @ orbo * 2`, minus/plus the occ-occ and vir-vir
contractions of `veff0mop` with `xpy` and of `veff0mom` with `xmy`
(`einsum(ki,ai->ak, ...)` is `xpy * Moo.T`; `einsum(ac,ai->ci, ...)`
is `Mvv.T * xpy`). -/
def wvo (inp : Inputs nocc nvir nao) (x y : Mat nocc nvir) (singlet : Bool) :
    Mat nvir nocc :=
  (2 : ℚ) • ((orbv inp.mo_coeff)ᵀ * veff0doo inp x y * orbo inp.mo_coeff)
    - (2 : ℚ) • (xpy x y * (ooB (veff0mop inp x y singlet))ᵀ)
    + (2 : ℚ) • ((vvB (veff0mop inp x y singlet))ᵀ * xpy x y)
    - (2 : ℚ) • (xmy x y * (ooB (veff0mom inp x y))ᵀ)
    + (2 : ℚ) • ((vvB (veff0mom inp x y))ᵀ * xmy x y)

/-- The Fock-response closure passed to the CPHF solver:
`fvind(x) = orbv.T @ (vj*2 - vk) @ orbo` for the J/K build of `dm + dm.T`
with `dm = orbv @ x @ orbo.T`. -/
def fvind (inp : Inputs nocc nvir nao) : Mat nvir nocc → Mat nvir nocc :=
  fun z =>
    let dm := orbv inp.mo_coeff * z * (orbo inp.mo_coeff)ᵀ
    let v := inp.get_jk (dm + dmᵀ)
    (orbv inp.mo_coeff)ᵀ * ((2 : ℚ) • v.1 - v.2) * orbo inp.mo_coeff

/-- Source line `z1 = cphf.solve(fvind, mo_energy, mo_occ, wvo, ...)[0].reshape(nvir,nocc)`. -/
def z1 (inp : Inputs nocc nvir nao) (x y : Mat nocc nvir) (singlet : Bool) :
    Mat nvir nocc :=
  inp.cphf_solve (fvind inp) (wvo inp x y singlet)

/-- Source line `z1ao = reduce(dot, (orbv, z1, orbo.T))`. -/
def z1ao (inp : Inputs nocc nvir nao) (x y : Mat nocc nvir) (singlet : Bool) :
    Mat nao nao :=
  orbv inp.mo_coeff * z1 inp x y singlet * (orbo inp.mo_coeff)ᵀ

/-- The MO-basis generalized Fock-like matrix `im0`, block by block as in the
source (`einsum(ak,ai->ki, Mvo, t)` is `Mvo.T * t`; `einsum(ci,ai->ac, Mvo, t)`
is `t * Mvo.T`; `einsum(ki,ai->ak, Moo, t)` is `t * Moo.T`); the occ-vir
block is never assigned and stays zero.  The occ-occ block also carries
`veff = vj*2 - vk` of the J/K build of `z1ao`. -/
def im0 (inp : Inputs nocc nvir nao) (x y : Mat nocc nvir) (singlet : Bool) :
    Mat (nocc + nvir) (nocc + nvir) :=
  let vz := inp.get_jk (z1ao inp x y singlet)
  let veffz := (2 : ℚ) • vz.1 - vz.2
  let mop := veff0mop inp x y singlet
  let mom := veff0mom inp x y
  blocks
    ((orbo inp.mo_coeff)ᵀ * (veff0doo inp x y + veffz) * orbo inp.mo_coeff
      + (voB mop)ᵀ * xpy x y + (voB mom)ᵀ * xmy x y)
    0
    ((2 : ℚ) • (xpy x y * (ooB mop)ᵀ) + (2 : ℚ) • (xmy x y * (ooB mom)ᵀ))
    (xpy x y * (voB mop)ᵀ + xmy x y * (voB mom)ᵀ)

/-- Source line `zeta = direct_sum(i+j->ij, mo_energy, mo_energy) * .5` with the
subsequent overrides `zeta[nocc:,:nocc] = mo_energy[:nocc]` (each vir-occ
entry becomes the energy of the occupied column) and
`zeta[:nocc,nocc:] = mo_energy[nocc:]` (each occ-vir entry becomes the
energy of the virtual column). -/
def zeta {nocc nvir : ℕ} (ε : Fin (nocc + nvir) → ℚ) :
    Mat (nocc + nvir) (nocc + nvir) :=
  blocks
    (fun i j => (ε (occIdx i) + ε (occIdx j)) * (1 / 2))
    (fun _ b => ε (virIdx b))
    (fun _ j => ε (occIdx j))
    (fun a b => (ε (virIdx a) + ε (virIdx b)) * (1 / 2))

/-- Source line `dm1` with `dm1[:nocc,:nocc] = doo` then `+= eye(nocc)*2`,
`dm1[nocc:,nocc:] = dvv`, `dm1[nocc:,:nocc] = z1`; the occ-vir block is
never assigned and stays zero. -/
def dm1 (inp : Inputs nocc nvir nao) (x y : Mat nocc nvir) (singlet : Bool) :
    Mat (nocc + nvir) (nocc + nvir) :=
  blocks (doo x y + (2 : ℚ) • 1) 0 (z1 inp x y singlet) (dvv x y)

/-- The AO back-transform `im0 = reduce(dot, (mo_coeff, im0 + zeta*dm1, mo_coeff.T))`
(the source reuses the name `im0`; `zeta*dm1` is the elementwise product). -/
def im0ao (inp : Inputs nocc nvir nao) (x y : Mat nocc nvir) (singlet : Bool) :
    Mat nao nao :=
  inp.mo_coeff *
    (im0 inp x y singlet +
      Matrix.hadamard (zeta inp.mo_energy) (dm1 inp x y singlet)) *
    inp.mo_coeffᵀ

/-- Source line `dmz1doo = z1ao + dmzoo`. -/
def dmz1doo (inp : Inputs nocc nvir nao) (x y : Mat nocc nvir) (singlet : Bool) :
    Mat nao nao :=
  z1ao inp x y singlet + dmzoo inp.mo_coeff x y

/-- Source line `oo0 = reduce(dot, (orbo, orbo.T))`. -/
def oo0 (C : Mat nao (nocc + nvir)) : Mat nao nao := orbo C * (orbo C)ᵀ

/-- The four densities of the two-electron derivative batch
`td_grad.get_jk(mol, (oo0, dmz1doo+dmz1doo.T, dmzvop+dmzvop.T, dmzvom-dmzvom.T))`. -/
def gradDensities (inp : Inputs nocc nvir nao) (x y : Mat nocc nvir)
    (singlet : Bool) : Fin 4 → Mat nao nao
  | ⟨0, _⟩ => oo0 inp.mo_coeff
  | ⟨1, _⟩ => dmz1doo inp x y singlet + (dmz1doo inp x y singlet)ᵀ
  | ⟨2, _⟩ => dmzvop inp.mo_coeff x y + (dmzvop inp.mo_coeff x y)ᵀ
  | ⟨3, _⟩ => dmzvom inp.mo_coeff x y - (dmzvom inp.mo_coeff x y)ᵀ
  | ⟨n + 4, h⟩ => absurd h (by omega)

/-- Source line `vhf1 = vj*2 - vk` when singlet, and
`vhf1 = vstack((vj[:2]*2 - vk[:2], -vk[2:]))` when triplet, over the four
channels of `gradDensities` (indexed `Fin 4`) and the three Cartesian
components (indexed `Fin 3`). -/
def vhf1 (inp : Inputs nocc nvir nao) (x y : Mat nocc nvir) (singlet : Bool) :
    Fin 4 → Fin 3 → Mat nao nao :=
  let vj := fun c => (inp.get_jk_grad (gradDensities inp x y singlet c)).1
  let vk := fun c => (inp.get_jk_grad (gradDensities inp x y singlet c)).2
  if singlet then fun c xd => (2 : ℚ) • vj c xd - vk c xd
  else fun c xd => if (c : ℕ) < 2 then (2 : ℚ) • vj c xd - vk c xd else -(vk c xd)

/-- One iteration of the per-atom contraction loop: the Cartesian 3-vector
`de[k]` for atom `ia`, with `(p0, p1)` the AO function range of the atom.
`h1ao` is the core-Hamiltonian derivative with the channel-0 two-electron
derivative added on the sliced rows and (transposed) columns; the einsum
contractions follow the source lines one by one, with the row/column slices
expressed as indicator conditions under the sums. -/
def de_atom (inp : Inputs nocc nvir nao) (x y : Mat nocc nvir) (singlet : Bool)
    (ia : ℕ) : Fin 3 → ℚ :=
  fun xd =>
    let p0 := (inp.offset ia).1
    let p1 := (inp.offset ia).2
    let V := vhf1 inp x y singlet
    let h1ao : Mat nao nao := fun p q =>
      inp.hcore_deriv ia xd p q
        + (if p0 ≤ (p : ℕ) ∧ (p : ℕ) < p1 then V 0 xd p q else 0)
        + (if p0 ≤ (q : ℕ) ∧ (q : ℕ) < p1 then V 0 xd q p else 0)
    (∑ p : Fin nao, ∑ q : Fin nao, h1ao p q * oo0 inp.mo_coeff p q) * 2
      + (∑ p : Fin nao, ∑ q : Fin nao, h1ao p q * dmz1doo inp x y singlet p q)
      - (∑ p : Fin nao, ∑ q : Fin nao,
          if p0 ≤ (p : ℕ) ∧ (p : ℕ) < p1 then
            inp.s1 xd p q * im0ao inp x y singlet p q else 0)
      - (∑ p : Fin nao, ∑ q : Fin nao,
          if p0 ≤ (q : ℕ) ∧ (q : ℕ) < p1 then
            inp.s1 xd q p * im0ao inp x y singlet p q else 0)
      + (∑ p : Fin nao, ∑ q : Fin nao,
          if p0 ≤ (p : ℕ) ∧ (p : ℕ) < p1 then
            V 1 xd p q * oo0 inp.mo_coeff p q else 0)
      + (∑ p : Fin nao, ∑ q : Fin nao,
          if p0 ≤ (p : ℕ) ∧ (p : ℕ) < p1 then
            V 2 xd p q * dmzvop inp.mo_coeff x y p q else 0) * 2
      + (∑ p : Fin nao, ∑ q : Fin nao,
          if p0 ≤ (p : ℕ) ∧ (p : ℕ) < p1 then
            V 3 xd p q * dmzvom inp.mo_coeff x y p q else 0) * 2
      + (∑ q : Fin nao, ∑ p : Fin nao,
          if p0 ≤ (q : ℕ) ∧ (q : ℕ) < p1 then
            V 2 xd q p * dmzvop inp.mo_coeff x y p q else 0) * 2
      - (∑ q : Fin nao, ∑ p : Fin nao,
          if p0 ≤ (q : ℕ) ∧ (q : ℕ) < p1 then
            V 3 xd q p * dmzvom inp.mo_coeff x y p q else 0) * 2

/-- The module-level `kernel(td_grad, x_y, singlet, atmlst, ...)`: defaults the
atom list to `range(mol.natm)` and maps the per-atom contraction over it,
returning the electronic gradient `de`, one Cartesian 3-vector per
requested atom. -/
def kernel (inp : Inputs nocc nvir nao) (x_y : Mat nocc nvir × Mat nocc nvir)
    (singlet : Bool) (atmlst : Option (List ℕ)) : List (Fin 3 → ℚ) :=
  (atmlst.getD (List.range inp.natm)).map (de_atom inp x_y.1 x_y.2 singlet)

/-- Python list indexing `l[i]` for a possibly negative integer index:
a nonnegative index reads position `i` (out of range is an `IndexError`,
modelled as `none`); a negative index reads position `len(l) + i` when that
is nonnegative and is an `IndexError` otherwise. -/
def pyGet {α : Type} (l : List α) (i : ℤ) : Option α :=
  if 0 ≤ i then l[i.toNat]?
  else if 0 ≤ i + (l.length : ℤ) then l[(i + (l.length : ℤ)).toNat]?
  else none

/-- The amplitude-pair resolution `if xy is None: xy = self._td.xy[state-1]`
of `Gradients.kernel`: an explicit pair is used as given, otherwise the
stored list of the bound solver is indexed at the Python index `state - 1`
(`none` models the uncaught `IndexError`). -/
def resolveXY {nocc nvir : ℕ} (l : List (Mat nocc nvir × Mat nocc nvir))
    (xy : Option (Mat nocc nvir × Mat nocc nvir)) (state : ℤ) :
    Option (Mat nocc nvir × Mat nocc nvir) :=
  match xy with
  | some v => some v
  | none => pyGet l (state - 1)

/-- The `Gradients` driver object: the kernel inputs, the bound excited-state
stored amplitude list `td_xy` and flag `td_singlet` of the bound solver, the
kernel of the ground-state gradient method (the `state=0` bypass oracle
`self._scf.nuc_grad_method().kernel(atmlst=atmlst)`), the per-atom
nuclear-repulsion gradient, and the mutable result field `de`
(initialized to `0` in `__init__`, modelled as the empty list). -/
structure Gradients (nocc nvir nao : ℕ) where
  inp : Inputs nocc nvir nao
  td_xy : List (Mat nocc nvir × Mat nocc nvir)
  td_singlet : Bool
  nuc_grad_method_kernel : Option (List ℕ) → List (Fin 3 → ℚ)
  grad_nuc_atom : ℕ → Fin 3 → ℚ
  de : List (Fin 3 → ℚ)

/-- Modelled from the spec: `grad_nuc(atmlst=atmlst)` of the ground-state
gradient base class `rhf_grad.Gradients` is outside the excerpted file; per
the spec it is "the nuclear-repulsion gradient" over "the same atom list",
one Cartesian 3-vector per requested atom, so it is modelled as a per-atom
oracle mapped over the atom list. -/
def grad_nuc (g : Gradients nocc nvir nao) (atmlst : List ℕ) :
    List (Fin 3 → ℚ) :=
  atmlst.map g.grad_nuc_atom

/-- Result of one `Gradients.kernel` call: the post-call driver object (the
only field the call mutates is `de`), the returned gradient array, and
whether the `state=0` ground-state warning was logged. -/
structure KernelOut (nocc nvir nao : ℕ) where
  g : Gradients nocc nvir nao
  de : List (Fin 3 → ℚ)
  warnedState0 : Bool

/-- The total gradient assembled by the driver for a resolved amplitude pair,
flag and atom list: `de = self.grad_elec(xy, singlet, atmlst)` (the module
`kernel`) plus `self.grad_nuc(atmlst=atmlst)`, added elementwise. -/
def deTotal (g : Gradients nocc nvir nao)
    (xyv : Mat nocc nvir × Mat nocc nvir) (s : Bool) (al : List ℕ) :
    List (Fin 3 → ℚ) :=
  List.zipWith (fun a b => a + b) (TDRHF.kernel g.inp xyv s (some al))
    (grad_nuc g al)

/-- The driver method `Gradients.kernel(xy=None, state=1, singlet=None,
atmlst=None)`: `state == 0` warns and delegates to the ground-state
gradient method, bypassing the pipeline and leaving the object untouched;
otherwise the amplitude pair defaults to `self._td.xy[state-1]`, the flag
to `self._td.singlet`, the atom list to `range(mol.natm)`, and the result
is the electronic gradient `grad_elec` (the module `kernel`) plus
`grad_nuc` over the same atom list, stored into `self.de` and returned.
`none` models an uncaught `IndexError` from the amplitude lookup. -/
def Gradients.kernel (g : Gradients nocc nvir nao)
    (xy : Option (Mat nocc nvir × Mat nocc nvir)) (state : ℤ)
    (singlet : Option Bool) (atmlst : Option (List ℕ)) :
    Option (KernelOut nocc nvir nao) :=
  if state = 0 then
    some ⟨g, g.nuc_grad_method_kernel atmlst, true⟩
  else
    match resolveXY g.td_xy xy state with
    | none => none
    | some xyv =>
      let s := singlet.getD g.td_singlet
      let al := atmlst.getD (List.range g.inp.natm)
      let d := deTotal g xyv s al
      some ⟨{ g with de := d }, d, false⟩

/-- Modelled from the spec: "a variant computation with J forcibly zeroed"
in the builds of `veff0doo` (spec §8, singlet/triplet sign rule applied to
"all effective-Fock intermediates").  Identical to `veff0doo` except only
the exchange output of `get_jk` is kept. -/
def veff0dooJZ (inp : Inputs nocc nvir nao) (x y : Mat nocc nvir) : Mat nao nao :=
  -(inp.get_jk (dmzoo inp.mo_coeff x y)).2

/-- Modelled from the spec: the Fock-response closure with J forcibly zeroed
(spec §8), keeping only the exchange channel of the CPHF response. -/
def fvindJZ (inp : Inputs nocc nvir nao) : Mat nvir nocc → Mat nvir nocc :=
  fun z =>
    let dm := orbv inp.mo_coeff * z * (orbo inp.mo_coeff)ᵀ
    let v := inp.get_jk (dm + dmᵀ)
    (orbv inp.mo_coeff)ᵀ * (-v.2) * orbo inp.mo_coeff

/-- Modelled from the spec: the triplet CPHF right-hand side with J forcibly
zeroed in all effective-Fock intermediate builds; `veff0mop` at
`singlet = false` and `veff0mom` are already pure exchange, so only the
`veff0doo` build changes. -/
def wvoJZ (inp : Inputs nocc nvir nao) (x y : Mat nocc nvir) : Mat nvir nocc :=
  (2 : ℚ) • ((orbv inp.mo_coeff)ᵀ * veff0dooJZ inp x y * orbo inp.mo_coeff)
    - (2 : ℚ) • (xpy x y * (ooB (veff0mop inp x y false))ᵀ)
    + (2 : ℚ) • ((vvB (veff0mop inp x y false))ᵀ * xpy x y)
    - (2 : ℚ) • (xmy x y * (ooB (veff0mom inp x y))ᵀ)
    + (2 : ℚ) • ((vvB (veff0mom inp x y))ᵀ * xmy x y)

/-- Modelled from the spec: the Z-vector of the J-zeroed triplet variant. -/
def z1JZ (inp : Inputs nocc nvir nao) (x y : Mat nocc nvir) : Mat nvir nocc :=
  inp.cphf_solve (fvindJZ inp) (wvoJZ inp x y)

/-- Modelled from the spec: `z1ao` of the J-zeroed triplet variant. -/
def z1aoJZ (inp : Inputs nocc nvir nao) (x y : Mat nocc nvir) : Mat nao nao :=
  orbv inp.mo_coeff * z1JZ inp x y * (orbo inp.mo_coeff)ᵀ

/-- Modelled from the spec: `im0` of the J-zeroed triplet variant (the line-90
response of `z1ao` is not in the claimed list of builds and keeps `vj*2-vk`). -/
def im0JZ (inp : Inputs nocc nvir nao) (x y : Mat nocc nvir) :
    Mat (nocc + nvir) (nocc + nvir) :=
  let vz := inp.get_jk (z1aoJZ inp x y)
  let veffz := (2 : ℚ) • vz.1 - vz.2
  let mop := veff0mop inp x y false
  let mom := veff0mom inp x y
  blocks
    ((orbo inp.mo_coeff)ᵀ * (veff0dooJZ inp x y + veffz) * orbo inp.mo_coeff
      + (voB mop)ᵀ * xpy x y + (voB mom)ᵀ * xmy x y)
    0
    ((2 : ℚ) • (xpy x y * (ooB mop)ᵀ) + (2 : ℚ) • (xmy x y * (ooB mom)ᵀ))
    (xpy x y * (voB mop)ᵀ + xmy x y * (voB mom)ᵀ)

/-- Modelled from the spec: `dm1` of the J-zeroed triplet variant. -/
def dm1JZ (inp : Inputs nocc nvir nao) (x y : Mat nocc nvir) :
    Mat (nocc + nvir) (nocc + nvir) :=
  blocks (doo x y + (2 : ℚ) • 1) 0 (z1JZ inp x y) (dvv x y)

/-- Modelled from the spec: the AO-basis energy-weighted Lagrangian of the
J-zeroed triplet variant. -/
def im0aoJZ (inp : Inputs nocc nvir nao) (x y : Mat nocc nvir) : Mat nao nao :=
  inp.mo_coeff *
    (im0JZ inp x y + Matrix.hadamard (zeta inp.mo_energy) (dm1JZ inp x y)) *
    inp.mo_coeffᵀ

/-- Modelled from the spec: `dmz1doo` of the J-zeroed triplet variant. -/
def dmz1dooJZ (inp : Inputs nocc nvir nao) (x y : Mat nocc nvir) : Mat nao nao :=
  z1aoJZ inp x y + dmzoo inp.mo_coeff x y

/-- Modelled from the spec: the four derivative-batch densities of the
J-zeroed triplet variant. -/
def gradDensitiesJZ (inp : Inputs nocc nvir nao) (x y : Mat nocc nvir) :
    Fin 4 → Mat nao nao
  | ⟨0, _⟩ => oo0 inp.mo_coeff
  | ⟨1, _⟩ => dmz1dooJZ inp x y + (dmz1dooJZ inp x y)ᵀ
  | ⟨2, _⟩ => dmzvop inp.mo_coeff x y + (dmzvop inp.mo_coeff x y)ᵀ
  | ⟨3, _⟩ => dmzvom inp.mo_coeff x y - (dmzvom inp.mo_coeff x y)ᵀ
  | ⟨n + 4, h⟩ => absurd h (by omega)

/-- Modelled from the spec: the triplet four-channel combination of the
J-zeroed variant (the derivative batch itself is not in the claimed list of
effective-Fock builds and keeps the triplet rule of the source). -/
def vhf1JZ (inp : Inputs nocc nvir nao) (x y : Mat nocc nvir) :
    Fin 4 → Fin 3 → Mat nao nao :=
  let vj := fun c => (inp.get_jk_grad (gradDensitiesJZ inp x y c)).1
  let vk := fun c => (inp.get_jk_grad (gradDensitiesJZ inp x y c)).2
  fun c xd => if (c : ℕ) < 2 then (2 : ℚ) • vj c xd - vk c xd else -(vk c xd)

/-- Modelled from the spec: the per-atom contraction of the J-zeroed triplet
variant. -/
def de_atomJZ (inp : Inputs nocc nvir nao) (x y : Mat nocc nvir) (ia : ℕ) :
    Fin 3 → ℚ :=
  fun xd =>
    let p0 := (inp.offset ia).1
    let p1 := (inp.offset ia).2
    let V := vhf1JZ inp x y
    let h1ao : Mat nao nao := fun p q =>
      inp.hcore_deriv ia xd p q
        + (if p0 ≤ (p : ℕ) ∧ (p : ℕ) < p1 then V 0 xd p q else 0)
        + (if p0 ≤ (q : ℕ) ∧ (q : ℕ) < p1 then V 0 xd q p else 0)
    (∑ p : Fin nao, ∑ q : Fin nao, h1ao p q * oo0 inp.mo_coeff p q) * 2
      + (∑ p : Fin nao, ∑ q : Fin nao, h1ao p q * dmz1dooJZ inp x y p q)
      - (∑ p : Fin nao, ∑ q : Fin nao,
          if p0 ≤ (p : ℕ) ∧ (p : ℕ) < p1 then
            inp.s1 xd p q * im0aoJZ inp x y p q else 0)
      - (∑ p : Fin nao, ∑ q : Fin nao,
          if p0 ≤ (q : ℕ) ∧ (q : ℕ) < p1 then
            inp.s1 xd q p * im0aoJZ inp x y p q else 0)
      + (∑ p : Fin nao, ∑ q : Fin nao,
          if p0 ≤ (p : ℕ) ∧ (p : ℕ) < p1 then
            V 1 xd p q * oo0 inp.mo_coeff p q else 0)
      + (∑ p : Fin nao, ∑ q : Fin nao,
          if p0 ≤ (p : ℕ) ∧ (p : ℕ) < p1 then
            V 2 xd p q * dmzvop inp.mo_coeff x y p q else 0) * 2
      + (∑ p : Fin nao, ∑ q : Fin nao,
          if p0 ≤ (p : ℕ) ∧ (p : ℕ) < p1 then
            V 3 xd p q * dmzvom inp.mo_coeff x y p q else 0) * 2
      + (∑ q : Fin nao, ∑ p : Fin nao,
          if p0 ≤ (q : ℕ) ∧ (q : ℕ) < p1 then
            V 2 xd q p * dmzvop inp.mo_coeff x y p q else 0) * 2
      - (∑ q : Fin nao, ∑ p : Fin nao,
          if p0 ≤ (q : ℕ) ∧ (q : ℕ) < p1 then
            V 3 xd q p * dmzvom inp.mo_coeff x y p q else 0) * 2

/-- Modelled from the spec: the full triplet gradient kernel with the Coulomb
term forcibly zeroed in the builds of `veff0doo`, `veff0mop`, `veff0mom`
and the CPHF response `fvind`, as the singlet/triplet sign rule of the spec
prescribes for "all effective-Fock intermediates" of a triplet state. -/
def kernelJZeroTriplet (inp : Inputs nocc nvir nao)
    (x_y : Mat nocc nvir × Mat nocc nvir) (atmlst : Option (List ℕ)) :
    List (Fin 3 → ℚ) :=
  (atmlst.getD (List.range inp.natm)).map (de_atomJZ inp x_y.1 x_y.2)

/-- A concrete 1x1 amplitude matrix, used as the excitation amplitude of the
first stored state in the concrete evaluation instance. -/
def xA : Mat 1 1 := fun _ _ => 2

/-- A concrete 1x1 amplitude matrix, used as the excitation amplitude of the
second stored state in the concrete evaluation instance. -/
def xB : Mat 1 1 := fun _ _ => 1

/-- A concrete instance of the kernel inputs with one occupied orbital, one
virtual orbital and one atomic orbital: `mo_coeff = [1, 2]`, zero orbital
energies, a linear Coulomb oracle `J(d) = d` with zero exchange, a CPHF
oracle returning `fvind(wvo)`, unit overlap derivative, zero
core-Hamiltonian derivative and a single atom covering the whole AO range. -/
def inpX : Inputs 1 1 1 :=
  ⟨fun _ q => if (q : ℕ) = 0 then 1 else 2,
   fun _ => 0,
   fun d => (d, 0),
   fun fv w => fv w,
   fun d => (fun _ => d, fun _ => 0),
   fun _ _ => 0,
   fun _ => 1,
   fun _ => (0, 1),
   1⟩

/-- A concrete driver object over `inpX`, holding two stored states with
amplitudes `xA` and `xB`, triplet flag, empty ground-state bypass result
and zero nuclear-repulsion gradient. -/
def gX : Gradients 1 1 1 :=
  ⟨inpX, [(xA, 0), (xB, 0)], false, fun _ => [], fun _ _ => 0, []⟩

theorem blocks_apply_oo (Aoo : Mat nocc nocc) (Aov : Mat nocc nvir)
    (Avo : Mat nvir nocc) (Avv : Mat nvir nvir) (i j : Fin nocc) :
    blocks Aoo Aov Avo Avv (occIdx i) (occIdx j) = Aoo i j := by
  simp [blocks, occIdx]

theorem blocks_apply_ov (Aoo : Mat nocc nocc) (Aov : Mat nocc nvir)
    (Avo : Mat nvir nocc) (Avv : Mat nvir nvir) (i : Fin nocc) (b : Fin nvir) :
    blocks Aoo Aov Avo Avv (occIdx i) (virIdx b) = Aov i b := by
  simp [blocks, occIdx, virIdx]

theorem blocks_apply_vo (Aoo : Mat nocc nocc) (Aov : Mat nocc nvir)
    (Avo : Mat nvir nocc) (Avv : Mat nvir nvir) (a : Fin nvir) (j : Fin nocc) :
    blocks Aoo Aov Avo Avv (virIdx a) (occIdx j) = Avo a j := by
  simp [blocks, occIdx, virIdx]

theorem blocks_apply_vv (Aoo : Mat nocc nocc) (Aov : Mat nocc nvir)
    (Avo : Mat nvir nocc) (Avv : Mat nvir nvir) (a b : Fin nvir) :
    blocks Aoo Aov Avo Avv (virIdx a) (virIdx b) = Avv a b := by
  simp [blocks, virIdx]

theorem mul_mul_transpose_apply {a b c d : ℕ} (A : Matrix (Fin a) (Fin b) ℚ)
    (B : Matrix (Fin b) (Fin c) ℚ) (D : Matrix (Fin d) (Fin c) ℚ)
    (μ : Fin a) (ν : Fin d) :
    (A * B * Dᵀ) μ ν = ∑ j, ∑ i, A μ i * B i j * D ν j := by
  simp [Matrix.mul_apply, Finset.sum_mul]

/-- C2: the Density Assembler produces `dvv[a,b] = Σ_i xpy[a,i]·xpy[b,i] +
xmy[a,i]·xmy[b,i]` and `doo[i,j] = -Σ_a xpy[a,i]·xpy[a,j] - Σ_a
xmy[a,i]·xmy[a,j]` with `xpy = (X+Y)^T` and `xmy = (X-Y)^T`, and the AO
back-transforms are `dmzvop = orbv·xpy·orbo^T`, `dmzvom = orbv·xmy·orbo^T`,
`dmzoo = orbo·doo·orbo^T + orbv·dvv·orbv^T` (stated entrywise); none of
these definitions takes the singlet/triplet flag, which therefore cannot
affect the outputs. -/
theorem c2_density_assembler (C : Mat nao (nocc + nvir)) (x y : Mat nocc nvir) :
    (∀ (a : Fin nvir) (i : Fin nocc), xpy x y a i = x i a + y i a)
    ∧ (∀ (a : Fin nvir) (i : Fin nocc), xmy x y a i = x i a - y i a)
    ∧ (∀ a b : Fin nvir, dvv x y a b
        = (∑ i, xpy x y a i * xpy x y b i) + ∑ i, xmy x y a i * xmy x y b i)
    ∧ (∀ i j : Fin nocc, doo x y i j
        = -(∑ a, xpy x y a i * xpy x y a j) - ∑ a, xmy x y a i * xmy x y a j)
    ∧ (∀ μ ν : Fin nao, dmzvop C x y μ ν
        = ∑ i, ∑ a, orbv C μ a * xpy x y a i * orbo C ν i)
    ∧ (∀ μ ν : Fin nao, dmzvom C x y μ ν
        = ∑ i, ∑ a, orbv C μ a * xmy x y a i * orbo C ν i)
    ∧ (∀ μ ν : Fin nao, dmzoo C x y μ ν
        = (∑ j, ∑ i, orbo C μ i * doo x y i j * orbo C ν j)
          + ∑ b, ∑ a, orbv C μ a * dvv x y a b * orbv C ν b) := by
  refine ⟨fun a i => rfl, fun a i => rfl, ?_, ?_, ?_, ?_, ?_⟩
  · intro a b
    simp [dvv, Matrix.mul_apply]
  · intro i j
    simp [doo, Matrix.mul_apply]
  · intro μ ν
    simpa using mul_mul_transpose_apply (orbv C) (xpy x y) (orbo C) μ ν
  · intro μ ν
    simpa using mul_mul_transpose_apply (orbv C) (xmy x y) (orbo C) μ ν
  · intro μ ν
    have h1 := mul_mul_transpose_apply (orbo C) (doo x y) (orbo C) μ ν
    have h2 := mul_mul_transpose_apply (orbv C) (dvv x y) (orbv C) μ ν
    simp [dmzoo, h1, h2]

/-- C3: calling the `kernel` of the driver with `state = 0` is not an error: it
returns exactly the ground-state reference value `nuc_grad_method().kernel(atmlst)`
result after emitting the warning, bypassing the excited-state pipeline and
leaving the driver object untouched, for every atom-list argument. -/
theorem c3_state0_bypass (g : Gradients nocc nvir nao)
    (xy : Option (Mat nocc nvir × Mat nocc nvir)) (sO : Option Bool)
    (aO : Option (List ℕ)) :
    Gradients.kernel g xy 0 sO aO
      = some ⟨g, g.nuc_grad_method_kernel aO, true⟩ := rfl

/-- C4: the energy-weighting matrix `zeta` is `(ε_p+ε_q)/2` on the occ-occ and
vir-vir blocks, with the asymmetric overrides `zeta[a,i] = ε_i` and
`zeta[i,a] = ε_a` on the off-diagonal blocks; `dm1` is `doo + 2·I` on occ-occ,
`dvv` on vir-vir, `z1` on vir-occ and zero on occ-vir; and the AO
back-transform is `C·(im0 + zeta*dm1)·C^T` with the elementwise product,
stated entrywise. -/
theorem c4_zeta_weighting (inp : Inputs nocc nvir nao) (x y : Mat nocc nvir)
    (singlet : Bool) :
    (∀ i j : Fin nocc, zeta inp.mo_energy (occIdx i) (occIdx j)
        = (inp.mo_energy (occIdx i) + inp.mo_energy (occIdx j)) / 2)
    ∧ (∀ a b : Fin nvir, zeta inp.mo_energy (virIdx a) (virIdx b)
        = (inp.mo_energy (virIdx a) + inp.mo_energy (virIdx b)) / 2)
    ∧ (∀ (a : Fin nvir) (i : Fin nocc),
        zeta inp.mo_energy (virIdx a) (occIdx i) = inp.mo_energy (occIdx i))
    ∧ (∀ (i : Fin nocc) (a : Fin nvir),
        zeta inp.mo_energy (occIdx i) (virIdx a) = inp.mo_energy (virIdx a))
    ∧ (∀ i j : Fin nocc, dm1 inp x y singlet (occIdx i) (occIdx j)
        = doo x y i j + (if i = j then 2 else 0))
    ∧ (∀ a b : Fin nvir, dm1 inp x y singlet (virIdx a) (virIdx b) = dvv x y a b)
    ∧ (∀ (a : Fin nvir) (i : Fin nocc),
        dm1 inp x y singlet (virIdx a) (occIdx i) = z1 inp x y singlet a i)
    ∧ (∀ (i : Fin nocc) (a : Fin nvir),
        dm1 inp x y singlet (occIdx i) (virIdx a) = 0)
    ∧ (∀ μ ν : Fin nao, im0ao inp x y singlet μ ν
        = ∑ q, ∑ p, inp.mo_coeff μ p
            * (im0 inp x y singlet p q
                + zeta inp.mo_energy p q * dm1 inp x y singlet p q)
            * inp.mo_coeff ν q) := by
  refine ⟨?_, ?_, ?_, ?_, ?_, ?_, ?_, ?_, ?_⟩
  · intro i j
    rw [zeta, blocks_apply_oo]
    ring
  · intro a b
    rw [zeta, blocks_apply_vv]
    ring
  · intro a i
    rw [zeta, blocks_apply_vo]
  · intro i a
    rw [zeta, blocks_apply_ov]
  · intro i j
    rw [dm1, blocks_apply_oo]
    by_cases h : i = j <;> simp [h, Matrix.one_apply]
  · intro a b
    rw [dm1, blocks_apply_vv]
  · intro a i
    rw [dm1, blocks_apply_vo]
  · intro i a
    rw [dm1, blocks_apply_ov]
    rfl
  · intro μ ν
    have h := mul_mul_transpose_apply inp.mo_coeff
      (im0 inp x y singlet +
        Matrix.hadamard (zeta inp.mo_energy) (dm1 inp x y singlet))
      inp.mo_coeff μ ν
    simpa [Matrix.hadamard] using h

/-- C5: the four-channel derivative batch runs over the densities
`(oo0, dmz1doo+dmz1doo^T, dmzvop+dmzvop^T, dmzvom-dmzvom^T)`, and its
combination `vhf1` is `2J-K` on every channel when singlet, while for
triplet channels 0 and 1 use `2J-K` and channels 2 and 3 use `-K` only. -/
theorem c5_vhf1_channels (inp : Inputs nocc nvir nao) (x y : Mat nocc nvir) :
    (∀ (c : Fin 4) (xd : Fin 3), vhf1 inp x y true c xd
        = (2 : ℚ) • (inp.get_jk_grad (gradDensities inp x y true c)).1 xd
          - (inp.get_jk_grad (gradDensities inp x y true c)).2 xd)
    ∧ (∀ xd : Fin 3, vhf1 inp x y false 0 xd
        = (2 : ℚ) • (inp.get_jk_grad (gradDensities inp x y false 0)).1 xd
          - (inp.get_jk_grad (gradDensities inp x y false 0)).2 xd)
    ∧ (∀ xd : Fin 3, vhf1 inp x y false 1 xd
        = (2 : ℚ) • (inp.get_jk_grad (gradDensities inp x y false 1)).1 xd
          - (inp.get_jk_grad (gradDensities inp x y false 1)).2 xd)
    ∧ (∀ xd : Fin 3, vhf1 inp x y false 2 xd
        = -((inp.get_jk_grad (gradDensities inp x y false 2)).2 xd))
    ∧ (∀ xd : Fin 3, vhf1 inp x y false 3 xd
        = -((inp.get_jk_grad (gradDensities inp x y false 3)).2 xd))
    ∧ (∀ s : Bool, gradDensities inp x y s 0 = oo0 inp.mo_coeff)
    ∧ (∀ s : Bool, gradDensities inp x y s 1
        = dmz1doo inp x y s + (dmz1doo inp x y s)ᵀ)
    ∧ (∀ s : Bool, gradDensities inp x y s 2
        = dmzvop inp.mo_coeff x y + (dmzvop inp.mo_coeff x y)ᵀ)
    ∧ (∀ s : Bool, gradDensities inp x y s 3
        = dmzvom inp.mo_coeff x y - (dmzvom inp.mo_coeff x y)ᵀ) :=
  ⟨fun _ _ => rfl, fun _ => rfl, fun _ => rfl, fun _ => rfl, fun _ => rfl,
   fun _ => rfl, fun _ => rfl, fun _ => rfl, fun _ => rfl⟩

/-- C7: with `Y = 0` (Tamm-Dancoff approximation) the derived combinations
collapse: `xpy = xmy = X^T` (the fixed reshape/transpose to vir x occ), so
any intermediate built from `xpy` equals the same formula applied to `xmy`;
in particular `dmzvop = dmzvom` and the two summands of `dvv` and of `doo`
coincide. -/
theorem c7_tda_limit (C : Mat nao (nocc + nvir)) (x : Mat nocc nvir) :
    xpy x 0 = xᵀ ∧ xmy x 0 = xᵀ ∧ xpy x 0 = xmy x 0
    ∧ dmzvop C x 0 = dmzvom C x 0
    ∧ xpy x 0 * (xpy x 0)ᵀ = xmy x 0 * (xmy x 0)ᵀ
    ∧ (xpy x 0)ᵀ * xpy x 0 = (xmy x 0)ᵀ * xmy x 0
    ∧ ∀ (m n : ℕ) (F : Mat nvir nocc → Matrix (Fin m) (Fin n) ℚ),
        F (xpy x 0) = F (xmy x 0) := by
  have hp : xpy x 0 = xᵀ := by simp [xpy]
  have hm : xmy x 0 = xᵀ := by simp [xmy]
  have he : xpy x 0 = xmy x 0 := hp.trans hm.symm
  exact ⟨hp, hm, he, by rw [dmzvop, dmzvom, he], by rw [he], by rw [he],
    fun m n F => by rw [he]⟩

/-- C1 (amended): for a triplet evaluation the Coulomb contribution to the
amplitude-coupling effective-Fock intermediates `veff0mop` and `veff0mom`
is identically zero: replacing the Coulomb output of the J/K oracle by any
other function (in particular forcibly zeroing it) leaves both builds
unchanged, and both equal the pure-exchange sandwich `-C^T·K·C`. -/
theorem c1_triplet_coupling_no_coulomb (inp : Inputs nocc nvir nao)
    (Jz : Mat nao nao → Mat nao nao) (x y : Mat nocc nvir) :
    veff0mop { inp with get_jk := fun d => (Jz d, (inp.get_jk d).2) } x y false
      = veff0mop inp x y false
    ∧ veff0mom { inp with get_jk := fun d => (Jz d, (inp.get_jk d).2) } x y
      = veff0mom inp x y
    ∧ veff0mop inp x y false
      = inp.mo_coeffᵀ
          * (-(inp.get_jk (dmzvop inp.mo_coeff x y
              + (dmzvop inp.mo_coeff x y)ᵀ)).2)
          * inp.mo_coeff
    ∧ veff0mom inp x y
      = inp.mo_coeffᵀ
          * (-(inp.get_jk (dmzvom inp.mo_coeff x y
              - (dmzvom inp.mo_coeff x y)ᵀ)).2)
          * inp.mo_coeff := by
  refine ⟨?_, ?_, rfl, rfl⟩
  · simp [veff0mop]
  · simp [veff0mom]

/-- C9: the effective potential for the X-Y coupling channel `veff0mom` is
built as `-K` only, with the Coulomb term unconditionally omitted: the
build is invariant under replacing (in particular zeroing) the Coulomb
output of the J/K oracle and equals the pure-exchange sandwich of the
antisymmetrized density `dmzvom - dmzvom^T`; the definition takes no
singlet/triplet flag, mirroring that the source computes it outside the
singlet branch. -/
theorem c9_veff0mom_exchange_only (inp : Inputs nocc nvir nao)
    (Jz : Mat nao nao → Mat nao nao) (x y : Mat nocc nvir) :
    veff0mom { inp with get_jk := fun d => (Jz d, (inp.get_jk d).2) } x y
      = veff0mom inp x y
    ∧ veff0mom inp x y
      = inp.mo_coeffᵀ
          * (-(inp.get_jk (dmzvom inp.mo_coeff x y
              - (dmzvom inp.mo_coeff x y)ᵀ)).2)
          * inp.mo_coeff := by
  refine ⟨?_, rfl⟩
  simp [veff0mom]

/-- C8: the `kernel` of the driver caches nothing across calls: its returned
gradient ignores the stored `de` field entirely (calling on a driver whose
`de` was replaced by anything gives the same result), and chaining a second
call on the driver object returned by a first call, with identical
arguments, returns the same gradient. -/
theorem c8_idempotent (g : Gradients nocc nvir nao)
    (xy : Option (Mat nocc nvir × Mat nocc nvir)) (state : ℤ)
    (sO : Option Bool) (aO : Option (List ℕ)) (d0 : List (Fin 3 → ℚ)) :
    ((Gradients.kernel g xy state sO aO).bind
        (fun r => Gradients.kernel r.g xy state sO aO)).map KernelOut.de
      = (Gradients.kernel g xy state sO aO).map KernelOut.de
    ∧ (Gradients.kernel { g with de := d0 } xy state sO aO).map KernelOut.de
      = (Gradients.kernel g xy state sO aO).map KernelOut.de := by
  constructor
  · by_cases hs : state = 0
    · subst hs
      simp [Gradients.kernel]
    · cases h : resolveXY g.td_xy xy state with
      | none => simp [Gradients.kernel, if_neg hs, h]
      | some v => simp [Gradients.kernel, if_neg hs, h, deTotal, grad_nuc]
  · by_cases hs : state = 0
    · subst hs
      simp [Gradients.kernel]
    · cases h : resolveXY g.td_xy xy state with
      | none => simp [Gradients.kernel, if_neg hs, h]
      | some v => simp [Gradients.kernel, if_neg hs, h, deTotal, grad_nuc]

/-- C6: for `state ≥ 1` (written `s+1`), an unspecified amplitude pair
defaults to the stored amplitudes of the bound solver at the 1-based state index
(list position `s`), an unspecified singlet flag defaults to the flag
of the solver, an unspecified atom list defaults to all atoms `range(natm)`; the
returned gradient is the electronic gradient plus the per-atom
nuclear-repulsion gradient over the same atom list (also stored in `de`),
and it has one Cartesian 3-vector per requested atom. -/
theorem c6_kernel_defaults (g : Gradients nocc nvir nao) (s : ℕ)
    (xyv : Mat nocc nvir × Mat nocc nvir) (h : g.td_xy[s]? = some xyv)
    (aO : Option (List ℕ)) :
    Gradients.kernel g none ((s : ℤ) + 1) none aO
      = some ⟨{ g with de := deTotal g xyv g.td_singlet (aO.getD (List.range g.inp.natm)) },
          deTotal g xyv g.td_singlet (aO.getD (List.range g.inp.natm)), false⟩
    ∧ (deTotal g xyv g.td_singlet (aO.getD (List.range g.inp.natm))).length
        = (aO.getD (List.range g.inp.natm)).length := by
  have hst : ((s : ℤ) + 1) ≠ 0 := by omega
  have hpy : pyGet g.td_xy (s : ℤ) = some xyv := by
    simp [pyGet, h]
  constructor
  · simp [Gradients.kernel, if_neg hst, resolveXY, hpy]
  · simp [deTotal, List.length_zipWith, TDRHF.kernel, grad_nuc]

/-- C6 witness: the defaulting theorem applied to the concrete driver `gX`
at state 1 with no explicit arguments. -/
theorem c6_kernel_defaults_witness :
    (Gradients.kernel gX none (((0 : ℕ) : ℤ) + 1) none none).map KernelOut.de
      = some (deTotal gX (xA, 0) gX.td_singlet (List.range gX.inp.natm)) := by
  rw [(c6_kernel_defaults gX 0 (xA, 0) rfl none).1]
  rfl

/-- C10 (amended): the driver performs no range validation beyond the
`state == 0` special case: for `state = s+1 ≥ 1` it indexes the stored
amplitude list at position `s`, an out-of-range state propagates the
uncaught index error, and a negative state silently computes the gradient
of the state stored at Python index `state - 1`; in particular `state = -1`
selects index `-2`, the second-to-last stored state (not the last). -/
theorem c10_state_indexing (g : Gradients nocc nvir nao) (s : ℕ) :
    (g.td_xy[s]? = none →
      Gradients.kernel g none ((s : ℤ) + 1) none none = none)
    ∧ (∀ xyv, g.td_xy[s]? = some xyv →
        Gradients.kernel g none ((s : ℤ) + 1) none none
          = Gradients.kernel g (some xyv) ((s : ℤ) + 1) none none)
    ∧ (∀ xyv, pyGet g.td_xy (-2) = some xyv →
        Gradients.kernel g none (-1) none none
          = Gradients.kernel g (some xyv) 1 none none)
    ∧ (2 ≤ g.td_xy.length →
        pyGet g.td_xy (-2) = g.td_xy[g.td_xy.length - 2]?) := by
  have hst : ((s : ℤ) + 1) ≠ 0 := by omega
  refine ⟨?_, ?_, ?_, ?_⟩
  · intro h
    have hpy : pyGet g.td_xy (s : ℤ) = none := by
      simp [pyGet, h]
    simp [Gradients.kernel, if_neg hst, resolveXY, hpy]
  · intro xyv h
    have hpy : pyGet g.td_xy (s : ℤ) = some xyv := by
      simp [pyGet, h]
    simp [Gradients.kernel, if_neg hst, resolveXY, hpy]
  · intro xyv h
    simp [Gradients.kernel, resolveXY, h]
  · intro h2
    rw [pyGet, if_neg (by norm_num), if_pos (by omega)]
    congr 1
    omega

/-- C10 witness: the indexing theorem applied to the concrete driver `gX`
(two stored states): state 6 raises, state 1 reads position 0, state -1
reads Python index -2, which is position `len - 2`. -/
theorem c10_state_indexing_witness :
    Gradients.kernel gX none (((5 : ℕ) : ℤ) + 1) none none = none
    ∧ Gradients.kernel gX none (((0 : ℕ) : ℤ) + 1) none none
        = Gradients.kernel gX (some (xA, 0)) (((0 : ℕ) : ℤ) + 1) none none
    ∧ Gradients.kernel gX none (-1) none none
        = Gradients.kernel gX (some (xA, 0)) 1 none none
    ∧ pyGet gX.td_xy (-2) = gX.td_xy[gX.td_xy.length - 2]? :=
  ⟨(c10_state_indexing gX 5).1 rfl,
   (c10_state_indexing gX 0).2.1 (xA, 0) rfl,
   (c10_state_indexing gX 0).2.2.1 (xA, 0) rfl,
   (c10_state_indexing gX 0).2.2.2 (by norm_num [gX])⟩

theorem gradDensities_zero (inp : Inputs nocc nvir nao) (x y : Mat nocc nvir)
    (s : Bool) : gradDensities inp x y s 0 = oo0 inp.mo_coeff := rfl

theorem gradDensities_one (inp : Inputs nocc nvir nao) (x y : Mat nocc nvir)
    (s : Bool) : gradDensities inp x y s 1
      = dmz1doo inp x y s + (dmz1doo inp x y s)ᵀ := rfl

theorem gradDensities_two (inp : Inputs nocc nvir nao) (x y : Mat nocc nvir)
    (s : Bool) : gradDensities inp x y s 2
      = dmzvop inp.mo_coeff x y + (dmzvop inp.mo_coeff x y)ᵀ := rfl

theorem gradDensities_three (inp : Inputs nocc nvir nao) (x y : Mat nocc nvir)
    (s : Bool) : gradDensities inp x y s 3
      = dmzvom inp.mo_coeff x y - (dmzvom inp.mo_coeff x y)ᵀ := rfl

theorem gradDensitiesJZ_zero (inp : Inputs nocc nvir nao) (x y : Mat nocc nvir) :
    gradDensitiesJZ inp x y 0 = oo0 inp.mo_coeff := rfl

theorem gradDensitiesJZ_one (inp : Inputs nocc nvir nao) (x y : Mat nocc nvir) :
    gradDensitiesJZ inp x y 1 = dmz1dooJZ inp x y + (dmz1dooJZ inp x y)ᵀ := rfl

theorem gradDensitiesJZ_two (inp : Inputs nocc nvir nao) (x y : Mat nocc nvir) :
    gradDensitiesJZ inp x y 2
      = dmzvop inp.mo_coeff x y + (dmzvop inp.mo_coeff x y)ᵀ := rfl

theorem gradDensitiesJZ_three (inp : Inputs nocc nvir nao) (x y : Mat nocc nvir) :
    gradDensitiesJZ inp x y 3
      = dmzvom inp.mo_coeff x y - (dmzvom inp.mo_coeff x y)ᵀ := rfl

theorem inpX_offset (ia : ℕ) : inpX.offset ia = (0, 1) := rfl

theorem inpX_hcore (ia : ℕ) (xd : Fin 3) : inpX.hcore_deriv ia xd = 0 := rfl

theorem inpX_s1 (xd : Fin 3) : inpX.s1 xd = 1 := rfl

theorem inpX_get_jk_grad (d : Mat 1 1) :
    inpX.get_jk_grad d = (fun _ => d, fun _ => 0) := rfl

theorem inpX_oo0 : oo0 inpX.mo_coeff = fun _ _ => 1 := by
  funext p q
  simp [oo0, orbo, occIdx, inpX, Matrix.mul_apply]

theorem inpX_dmzvop (t : ℚ) :
    dmzvop inpX.mo_coeff (fun _ _ => t) 0 = fun _ _ => 2 * t := by
  funext p q
  simp [dmzvop, xpy, orbo, orbv, occIdx, virIdx, inpX, Matrix.mul_apply]

theorem inpX_dmzvom (t : ℚ) :
    dmzvom inpX.mo_coeff (fun _ _ => t) 0 = fun _ _ => 2 * t := by
  funext p q
  simp [dmzvom, xmy, orbo, orbv, occIdx, virIdx, inpX, Matrix.mul_apply]

theorem inpX_dmz1doo (t : ℚ) :
    dmz1doo inpX (fun _ _ => t) 0 false = fun _ _ => 1542 * t ^ 2 := by
  funext p q
  simp [dmz1doo, z1ao, z1, fvind, wvo, veff0doo, veff0mop, veff0mom, dmzoo,
        dmzvop, dmzvom, dvv, doo, xpy, xmy, orbo, orbv, occIdx, virIdx, ooB,
        vvB, inpX, Matrix.mul_apply]
  ring

theorem inpX_im0ao (t : ℚ) :
    im0ao inpX (fun _ _ => t) 0 false = fun _ _ => 3084 * t ^ 2 := by
  funext p q
  simp [im0ao, im0, dm1, zeta, blocks, Fin.addCases, z1ao, z1, fvind, wvo,
        veff0doo, veff0mop, veff0mom, dmzoo, dmzvop, dmzvom, dvv, doo, xpy,
        xmy, orbo, orbv, occIdx, virIdx, ooB, vvB, voB, inpX, Matrix.mul_apply,
        Matrix.hadamard, Fin.sum_univ_succ]
  ring

theorem inpX_dmz1dooJZ (t : ℚ) :
    dmz1dooJZ inpX (fun _ _ => t) 0 = fun _ _ => 6 * t ^ 2 := by
  funext p q
  simp [dmz1dooJZ, z1aoJZ, z1JZ, fvindJZ, wvoJZ, veff0dooJZ, veff0mop,
        veff0mom, dmzoo, dmzvop, dmzvom, dvv, doo, xpy, xmy, orbo, orbv,
        occIdx, virIdx, ooB, vvB, inpX, Matrix.mul_apply]
  ring

theorem inpX_im0aoJZ (t : ℚ) :
    im0aoJZ inpX (fun _ _ => t) 0 = fun _ _ => 0 := by
  funext p q
  simp [im0aoJZ, im0JZ, dm1JZ, zeta, blocks, Fin.addCases, z1aoJZ, z1JZ,
        fvindJZ, wvoJZ, veff0dooJZ, veff0mop, veff0mom, dmzoo, dmzvop, dmzvom,
        dvv, doo, xpy, xmy, orbo, orbv, occIdx, virIdx, ooB, vvB, voB, inpX,
        Matrix.mul_apply, Matrix.hadamard, Fin.sum_univ_succ]

theorem inpX_vhf1_0 (t : ℚ) (xd : Fin 3) (p q : Fin 1) :
    vhf1 inpX (fun _ _ => t) 0 false 0 xd p q = 2 := by
  simp [vhf1, gradDensities_zero, inpX_get_jk_grad, inpX_oo0]

theorem inpX_vhf1_1 (t : ℚ) (xd : Fin 3) (p q : Fin 1) :
    vhf1 inpX (fun _ _ => t) 0 false 1 xd p q = 6168 * t ^ 2 := by
  simp [vhf1, gradDensities_one, inpX_get_jk_grad, inpX_dmz1doo]
  ring

theorem inpX_vhf1_2 (t : ℚ) (xd : Fin 3) (p q : Fin 1) :
    vhf1 inpX (fun _ _ => t) 0 false 2 xd p q = 0 := by
  simp [vhf1, gradDensities_two, inpX_get_jk_grad]

theorem inpX_vhf1_3 (t : ℚ) (xd : Fin 3) (p q : Fin 1) :
    vhf1 inpX (fun _ _ => t) 0 false 3 xd p q = 0 := by
  simp [vhf1, gradDensities_three, inpX_get_jk_grad,
        show (((3 : Fin 4) : ℕ)) = 3 from rfl]

theorem inpX_vhf1JZ_0 (t : ℚ) (xd : Fin 3) (p q : Fin 1) :
    vhf1JZ inpX (fun _ _ => t) 0 0 xd p q = 2 := by
  simp [vhf1JZ, gradDensitiesJZ_zero, inpX_get_jk_grad, inpX_oo0]

theorem inpX_vhf1JZ_1 (t : ℚ) (xd : Fin 3) (p q : Fin 1) :
    vhf1JZ inpX (fun _ _ => t) 0 1 xd p q = 24 * t ^ 2 := by
  simp [vhf1JZ, gradDensitiesJZ_one, inpX_get_jk_grad, inpX_dmz1dooJZ]
  ring

theorem inpX_vhf1JZ_2 (t : ℚ) (xd : Fin 3) (p q : Fin 1) :
    vhf1JZ inpX (fun _ _ => t) 0 2 xd p q = 0 := by
  simp [vhf1JZ, gradDensitiesJZ_two, inpX_get_jk_grad]

theorem inpX_vhf1JZ_3 (t : ℚ) (xd : Fin 3) (p q : Fin 1) :
    vhf1JZ inpX (fun _ _ => t) 0 3 xd p q = 0 := by
  simp [vhf1JZ, gradDensitiesJZ_three, inpX_get_jk_grad,
        show (((3 : Fin 4) : ℕ)) = 3 from rfl]

theorem inpX_de_atom (t : ℚ) (xd : Fin 3) :
    de_atom inpX (fun _ _ => t) 0 false 0 xd = 6168 * t ^ 2 + 8 := by
  simp [de_atom, inpX_offset, inpX_hcore, inpX_s1, inpX_vhf1_0, inpX_vhf1_1,
        inpX_vhf1_2, inpX_vhf1_3, inpX_oo0, inpX_dmz1doo, inpX_im0ao,
        inpX_dmzvop, inpX_dmzvom, Fin.sum_univ_one]
  ring

theorem inpX_de_atomJZ (t : ℚ) (xd : Fin 3) :
    de_atomJZ inpX (fun _ _ => t) 0 0 xd = 48 * t ^ 2 + 8 := by
  simp [de_atomJZ, inpX_offset, inpX_hcore, inpX_s1, inpX_vhf1JZ_0,
        inpX_vhf1JZ_1, inpX_vhf1JZ_2, inpX_vhf1JZ_3, inpX_oo0, inpX_dmz1dooJZ,
        inpX_im0aoJZ, inpX_dmzvop, inpX_dmzvom, Fin.sum_univ_one]
  ring

/-- C1 counterexample: at the concrete triplet instance `inpX` with amplitude
`xA`, the gradient of the kernel differs from the variant with the Coulomb term
forcibly zeroed in the builds of `veff0doo`, `veff0mop`, `veff0mom` and
`fvind` (the kernel gives 24680 per component, the J-zeroed variant 200):
the Coulomb contribution to `veff0doo` and to the CPHF response is not
zero for a triplet state. -/
theorem c1_jzero_changes_result :
    kernel inpX (xA, 0) false none ≠ kernelJZeroTriplet inpX (xA, 0) none := by
  intro h
  have h2 : [de_atom inpX xA 0 false 0] = [de_atomJZ inpX xA 0 0] := h
  rw [List.cons.injEq] at h2
  have h1 : de_atom inpX xA 0 false 0 (0 : Fin 3)
      = de_atomJZ inpX xA 0 0 (0 : Fin 3) := congrFun h2.1 0
  have e1 : de_atom inpX xA 0 false 0 (0 : Fin 3) = 6168 * (2 : ℚ) ^ 2 + 8 :=
    inpX_de_atom 2 0
  have e2 : de_atomJZ inpX xA 0 0 (0 : Fin 3) = 48 * (2 : ℚ) ^ 2 + 8 :=
    inpX_de_atomJZ 2 0
  rw [e1, e2] at h1
  norm_num at h1

/-- C10 counterexample: on the concrete driver `gX` with two stored states,
`state = -1` computes exactly the gradient of the first stored state (the
second-to-last, Python index -2), and that result differs from the gradient
of the last stored state, refuting that a negative state selects the last
state. -/
theorem c10_negative_state_not_last :
    Gradients.kernel gX none (-1) none none
      = Gradients.kernel gX (some (xA, 0)) 1 none none
    ∧ (Gradients.kernel gX none (-1) none none).map KernelOut.de
      ≠ (Gradients.kernel gX (some (xB, 0)) 1 none none).map KernelOut.de := by
  refine ⟨rfl, ?_⟩
  intro h
  have hA : (Gradients.kernel gX none (-1) none none).map KernelOut.de
      = some [de_atom inpX xA 0 false 0 + gX.grad_nuc_atom 0] := rfl
  have hB : (Gradients.kernel gX (some (xB, 0)) 1 none none).map KernelOut.de
      = some [de_atom inpX xB 0 false 0 + gX.grad_nuc_atom 0] := rfl
  rw [hA, hB, Option.some.injEq, List.cons.injEq] at h
  have h1 := congrFun h.1 (0 : Fin 3)
  have hnuc : gX.grad_nuc_atom 0 (0 : Fin 3) = 0 := rfl
  rw [Pi.add_apply, Pi.add_apply, hnuc] at h1
  have e1 : de_atom inpX xA 0 false 0 (0 : Fin 3) = 6168 * (2 : ℚ) ^ 2 + 8 :=
    inpX_de_atom 2 0
  have e2 : de_atom inpX xB 0 false 0 (0 : Fin 3) = 6168 * (1 : ℚ) ^ 2 + 8 :=
    inpX_de_atom 1 0
  rw [e1, e2] at h1
  norm_num at h1

end TDRHF
